import Mathlib

/-!
Verification of the attendance locking / upsert / aggregation workflow of the
smart-attendance-hub repository, shallowly embedded in Lean.

Conventions of the embedding:
* Times are integers, in milliseconds since the epoch (JS `Date.getTime()`).
* Calendar dates are integers, the epoch-day index; a date-only string
  `yyyy-mm-dd` parsed by `new Date(...)` denotes midnight UTC of that day,
  i.e. millisecond instant `d * 86400000`.
* JS `NaN` propagation through `parseInt` and invalid `Date`s is modelled by
  `Option`: `none` is `NaN` / an invalid date; any `>` comparison against an
  invalid date is `false`, as in JS.
* The relational store is a list of rows plus a fresh-id counter; `insert`
  appends, `update ... where id = x` maps over the rows.
-/

/-- Attendance status enum (`attendance_status` in `server/db/schema.ts`). -/
inductive Status where
  | present
  | absent
  | late
deriving DecidableEq

/-- One stored attendance row (`attendance` table in `server/db/schema.ts`):
id, student, date, status, remarks, markedBy, markedAt (insert default `now`),
updatedAt. -/
structure Row where
  id : ℕ
  studentId : ℕ
  date : ℤ
  status : Status
  remarks : Option String
  markedBy : ℕ
  markedAt : ℤ
  updatedAt : ℤ
deriving DecidableEq

/-- One record of the request body of `POST /api/attendance/upsert`. -/
structure InRec where
  studentId : ℕ
  date : ℤ
  status : Status
  remarks : Option String
deriving DecidableEq

/-- The attendance table state: its rows plus the next fresh primary key. -/
structure Store where
  rows : List Row
  nextId : ℕ
deriving DecidableEq

/-- The code points `parseInt` trims: ECMAScript WhiteSpace and
LineTerminator — TAB, LF, VT, FF, CR, SP, NBSP, OGHAM SPACE MARK,
U+2000..U+200A, LINE/PARAGRAPH SEPARATOR, NARROW NBSP, MATHEMATICAL SPACE,
IDEOGRAPHIC SPACE and ZWNBSP/BOM. -/
def jsWhitespace (c : Char) : Bool :=
  c.toNat == 9 || c.toNat == 10 || c.toNat == 11 || c.toNat == 12 ||
  c.toNat == 13 || c.toNat == 32 || c.toNat == 160 || c.toNat == 5760 ||
  (decide (8192 ≤ c.toNat) && decide (c.toNat ≤ 8202)) ||
  c.toNat == 8232 || c.toNat == 8233 || c.toNat == 8239 ||
  c.toNat == 8287 || c.toNat == 12288 || c.toNat == 65279

/-- A hexadecimal digit as accepted by `parseInt` with radix 16:
`0-9`, `a-f`, `A-F`. -/
def isHexDigitJS (c : Char) : Bool :=
  c.isDigit || (decide (97 ≤ c.toNat) && decide (c.toNat ≤ 102)) ||
  (decide (65 ≤ c.toNat) && decide (c.toNat ≤ 70))

/-- Numeric value of a `parseInt` radix-16 digit. -/
def hexVal (c : Char) : ℕ :=
  if c.isDigit then c.toNat - 48
  else if decide (97 ≤ c.toNat) && decide (c.toNat ≤ 102) then c.toNat - 87
  else c.toNat - 55

/-- JS `parseInt(s)` with no radix argument: trim the ECMAScript whitespace
set, take an optional sign, infer radix 16 on a `0x`/`0X` prefix and radix
10 otherwise, then read the longest prefix of digits of that radix; `none`
models `NaN` (no digit at all, e.g. `""`, `"abc"` or `"0x"`). Trailing
garbage after the digits is ignored. -/
def parseIntJS (s : String) : Option ℤ :=
  let cs := s.data.dropWhile jsWhitespace
  let signAndRest : ℤ × List Char :=
    match cs with
    | '-' :: t => (-1, t)
    | '+' :: t => (1, t)
    | _ => (1, cs)
  let hexRest : Option (List Char) :=
    match signAndRest.2 with
    | '0' :: 'x' :: t => some t
    | '0' :: 'X' :: t => some t
    | _ => none
  match hexRest with
  | some t =>
      let ds := t.takeWhile isHexDigitJS
      if ds.isEmpty then none
      else some (signAndRest.1 * (ds.foldl (fun a c => a * 16 + hexVal c) 0 : ℕ))
  | none =>
      let ds := signAndRest.2.takeWhile (fun c => c.isDigit)
      if ds.isEmpty then none
      else some (signAndRest.1 * (ds.foldl (fun a c => a * 10 + (c.toNat - 48)) 0 : ℕ))

/-- JS `lockSetting?.value || '24'`: a missing settings row (`undefined`) and
the empty string are both falsy, so both fall back to `'24'`. -/
def jsOrDefault24 (v : Option String) : String :=
  match v with
  | none => "24"
  | some s => if s = "" then "24" else s

/-- Millisecond instant of 23:59:59.999 on epoch-day `d`
(`lockTime.setHours(23, 59, 59, 999)` on the record's date). -/
def dayEnd (d : ℤ) : ℤ := d * 86400000 + 86399999

/-- `lockTime.setHours(lockTime.getHours() + lockHours)`: adding `NaN` hours
(`none`) makes the date invalid (`none`); otherwise it shifts the instant by
`h` hours of 3600000 ms. -/
def lockTimeOf (d : ℤ) (h : Option ℤ) : Option ℤ :=
  h.map (fun hh => dayEnd d + hh * 3600000)

/-- JS `now > lockTime` on `Date`s: comparison with an invalid date is
`false`; otherwise compare the millisecond instants. -/
def jsGt (now : ℤ) (t : Option ℤ) : Bool :=
  match t with
  | none => false
  | some tt => decide (tt < now)

/-- The per-record lock test of the upsert route: the record is rejected when
`now > lockTime`. -/
def lockCheckRejects (d : ℤ) (lockHours : Option ℤ) (now : ℤ) : Bool :=
  jsGt now (lockTimeOf d lockHours)

/-- Whether a non-admin write on a record dated `d` is permitted (the negation
of the route's rejection test). -/
def writableCode (d : ℤ) (lockHours : Option ℤ) (now : ℤ) : Bool :=
  ! lockCheckRejects d lockHours now

/-- The row-matching predicate of the upsert's existence query:
`eq(attendance.studentId, record.studentId) AND eq(attendance.date, record.date)`. -/
def keyMatch (sid : ℕ) (d : ℤ) (r : Row) : Bool :=
  decide (r.studentId = sid) && decide (r.date = d)

/-- All rows of the store for one (studentId, date) pair. -/
def rowsFor (st : Store) (sid : ℕ) (d : ℤ) : List Row :=
  st.rows.filter (keyMatch sid d)

/-- The `set` clause of the update branch:
`set({status, remarks, markedBy, updatedAt: new Date()})` — the id, key and
`markedAt` of the row are untouched. -/
def updRow (rec : InRec) (uid : ℕ) (now : ℤ) (r : Row) : Row :=
  { r with status := rec.status, remarks := rec.remarks,
           markedBy := uid, updatedAt := now }

/-- The row built by the insert branch: fresh primary key; `markedAt` and
`updatedAt` take their schema default `now`. -/
def freshRow (st : Store) (rec : InRec) (uid : ℕ) (now : ℤ) : Row :=
  ⟨st.nextId, rec.studentId, rec.date, rec.status, rec.remarks, uid, now, now⟩

/-- One iteration of the upsert loop body, after the lock check passed:
select the first existing row for the pair (`limit 1`); if present, update its
status/remarks/markedBy/updatedAt in place (`where id = existing[0].id`);
otherwise insert a new row whose markedAt and updatedAt default to `now`. -/
def upsertOne (st : Store) (rec : InRec) (uid : ℕ) (now : ℤ) : Store :=
  match st.rows.find? (keyMatch rec.studentId rec.date) with
  | some ex =>
      { st with
        rows := st.rows.map (fun r =>
          if r.id = ex.id then updRow rec uid now r else r) }
  | none =>
      { rows := st.rows ++ [freshRow st rec uid now],
        nextId := st.nextId + 1 }

/-- Outcome of one call of the upsert route: the (possibly partially written)
store, and `some d` when the call returned the 403 `Attendance for d is
locked.` error. -/
structure RouteResult where
  error : Option ℤ
  store : Store
deriving DecidableEq

/-- The `for (const record of records)` loop of `POST /api/attendance/upsert`:
for each record in order, non-admins undergo the lock check — a failure
returns the `Locked` error at once, keeping everything already written —
and then the record is upserted. -/
def processBatch (isAdmin : Bool) (lockHours : Option ℤ) (now : ℤ) (uid : ℕ) :
    List InRec → Store → RouteResult
  | [], st => ⟨none, st⟩
  | r :: rs, st =>
      if !isAdmin && lockCheckRejects r.date lockHours now then
        ⟨some r.date, st⟩
      else
        processBatch isAdmin lockHours now uid rs (upsertOne st r uid now)

/-- `POST /api/attendance/upsert`: read the `attendance_lock_hours` setting
(`lockVal`, `none` when the row is absent), `parseInt(value || '24')`, then
run the loop. -/
def upsertRoute (recs : List InRec) (uid : ℕ) (isAdmin : Bool)
    (lockVal : Option String) (now : ℤ) (st : Store) : RouteResult :=
  processBatch isAdmin (parseIntJS (jsOrDefault24 lockVal)) now uid recs st

/-- Applying the write part of a batch (no lock checks): the store after every
record of the list has been upserted, in order. -/
def applyAll (recs : List InRec) (uid : ℕ) (now : ℤ) (st : Store) : Store :=
  recs.foldl (fun s r => upsertOne s r uid now) st

/-- One successfully applied upsert, as seen by the store: the record together
with the writer identity and the write time of its call. -/
structure Write where
  input : InRec
  uid : ℕ
  now : ℤ
deriving DecidableEq

/-- The store after a sequence of successfully applied upserts, possibly from
distinct calls (distinct writers and times). -/
def applyWrites (ws : List Write) (st : Store) : Store :=
  ws.foldl (fun s w => upsertOne s w.input w.uid w.now) st

/-- The `markedAt` value the pair (sid, d) carries after a batch written at
time `now`: the creation time already stored if the pair existed, otherwise
`now`. -/
def markedAtAfter (st : Store) (sid : ℕ) (d : ℤ) (now : ℤ) : ℤ :=
  match (rowsFor st sid d).head? with
  | none => now
  | some old => old.markedAt

/-- Whether one request record trips the lock check of the upsert route. -/
def recFails (isAdmin : Bool) (lockHours : Option ℤ) (now : ℤ)
    (r : InRec) : Bool :=
  !isAdmin && lockCheckRejects r.date lockHours now

/-- Whether a request record targets the (studentId, date) pair. -/
def inputMatch (sid : ℕ) (d : ℤ) (r : InRec) : Bool :=
  decide (r.studentId = sid) && decide (r.date = d)

/-- JS `Math.round` on a non-negative value: round half up,
`⌊x + 1/2⌋`. -/
def jsRound (q : ℚ) : ℤ := ⌊q + 1 / 2⌋

/-- Result shape of the per-student statistics of `GET /api/reports/attendance`
and of `generateReport` in `Reports.tsx`. -/
structure Stats where
  present : ℕ
  absent : ℕ
  late : ℕ
  total : ℕ
  percentage : ℤ
deriving DecidableEq

/-- Per-student aggregation (identical in `GET /api/reports/attendance` and
`Reports.tsx`): count each status with `filter(...).length`, `total` is the
sum, `percentage` is `total > 0 ? Math.round(((present + late) / total) * 100)
: 0`. -/
def summarize (records : List Status) : Stats :=
  let p := (records.filter (fun r => decide (r = Status.present))).length
  let a := (records.filter (fun r => decide (r = Status.absent))).length
  let l := (records.filter (fun r => decide (r = Status.late))).length
  let total := p + a + l
  { present := p, absent := a, late := l, total := total,
    percentage :=
      if 0 < total then jsRound (((p : ℚ) + (l : ℚ)) / (total : ℚ) * 100)
      else 0 }

/-- Cohort average of `Reports.tsx`: `totalPercentage` is the sum of the
students' percentages; `avgAttendance = reportData.length > 0 ?
Math.round(totalPercentage / reportData.length) : 0`. -/
def avgAttendance (ps : List ℤ) : ℤ :=
  if 0 < ps.length then jsRound ((ps.sum : ℚ) / (ps.length : ℚ)) else 0

/-- `belowThreshold` of `Reports.tsx`:
`reportData.filter(r => r.percentage < 75).length`. -/
def belowThreshold (ps : List ℤ) : ℕ :=
  (ps.filter (fun p => decide (p < 75))).length

/-- One row of the `attendance_locks` table (Supabase migration): an explicit
admin-created lock for one class/section/date. -/
structure LockRow where
  classId : ℕ
  sectionId : ℕ
  date : ℤ
deriving DecidableEq

/-- `GET /api/attendance/check-lock`: read the `attendance_lock_hours`
setting, compute the same lock time as the upsert route, and report
`isLocked: now > lockTime`. It consults no `attendance_locks` row. -/
def serverCheckLock (d : ℤ) (lockVal : Option String) (now : ℤ) : Bool :=
  jsGt now (lockTimeOf d (parseIntJS (jsOrDefault24 lockVal)))

/-- `checkLock` of `MarkAttendance.tsx`: query `attendance_locks` for the
class/section/date with `maybeSingle()` and set `isLocked(!!data)`. It
consults no time window. -/
def clientCheckLock (locks : List LockRow) (c s : ℕ) (d : ℤ) : Bool :=
  (locks.find? (fun L =>
    decide (L.classId = c) && decide (L.sectionId = s) && decide (L.date = d))).isSome

/-- Modelled from the spec: the combined `isDateLocked(classId, sectionId,
date)` boundary operation of §6, true iff the time-window check fails OR an
administrative lock row exists for that class/section/date. No single
operation of the source combines the two; this is the spec's unification. -/
def isDateLockedSpec (locks : List LockRow) (c s : ℕ) (d : ℤ)
    (lockVal : Option String) (now : ℤ) : Bool :=
  serverCheckLock d lockVal now || clientCheckLock locks c s d

/-- `handleSave` of `MarkAttendance.tsx` proceeds to the write unless
`isLocked && role !== 'admin'`. -/
def handleSaveProceeds (isLocked : Bool) (role : String) : Bool :=
  !(isLocked && decide (role ≠ "admin"))

/-- Well-formedness of the attendance table: primary keys are distinct, the
(studentId, date) uniqueness constraint of the schema holds, and every key is
below the fresh-key counter. -/
def Store.WF (st : Store) : Prop :=
  st.rows.Pairwise (fun a b => a.id ≠ b.id) ∧
  st.rows.Pairwise (fun a b => ¬(a.studentId = b.studentId ∧ a.date = b.date)) ∧
  ∀ r ∈ st.rows, r.id < st.nextId

/-- A sanity example: the empty batch writes nothing and is never rejected. -/
example : ∀ st now uid lv a, upsertRoute [] uid a lv now st = ⟨none, st⟩ := by
  intro st now uid lv a
  rfl

example : parseIntJS "24" = some 24 := by decide

example : parseIntJS "-24" = some (-24) := by decide

example : parseIntJS "abc" = none := by decide

example : parseIntJS "" = none := by decide

example : parseIntJS "\x0B24" = some 24 := by decide

example : parseIntJS "  24px" = some 24 := by decide

example : parseIntJS "0x10" = some 16 := by decide

example : parseIntJS "-0X1f" = some (-31) := by decide

example : parseIntJS "0x" = none := by decide

example : parseIntJS "08" = some 8 := by decide

theorem jsRound_eval (q : ℚ) (z : ℤ) (h1 : (z : ℚ) ≤ q + 1 / 2)
    (h2 : q + 1 / 2 < z + 1) : jsRound q = z := by
  rw [jsRound, Int.floor_eq_iff]
  exact ⟨h1, h2⟩

example : jsRound (5 / 2 : ℚ) = 3 := jsRound_eval _ _ (by norm_num) (by norm_num)

example : jsRound ((200 : ℚ) / 3) = 67 :=
  jsRound_eval _ _ (by norm_num) (by norm_num)

example : summarize [] = ⟨0, 0, 0, 0, 0⟩ := by
  simp [summarize]

example : avgAttendance [100, 99] = 100 := by
  rw [avgAttendance]
  norm_num
  exact jsRound_eval _ _ (by norm_num) (by norm_num)

theorem keyMatch_iff (sid : ℕ) (d : ℤ) (r : Row) :
    keyMatch sid d r = true ↔ r.studentId = sid ∧ r.date = d := by
  simp [keyMatch]

theorem keyMatch_updRow (sid : ℕ) (d : ℤ) (rec : InRec) (uid : ℕ) (now : ℤ)
    (r : Row) : keyMatch sid d (updRow rec uid now r) = keyMatch sid d r := rfl

theorem updIf_id (rec : InRec) (uid : ℕ) (now : ℤ) (i : ℕ) (r : Row) :
    (if r.id = i then updRow rec uid now r else r).id = r.id := by
  split <;> rfl

theorem updIf_studentId (rec : InRec) (uid : ℕ) (now : ℤ) (i : ℕ) (r : Row) :
    (if r.id = i then updRow rec uid now r else r).studentId = r.studentId := by
  split <;> rfl

theorem updIf_date (rec : InRec) (uid : ℕ) (now : ℤ) (i : ℕ) (r : Row) :
    (if r.id = i then updRow rec uid now r else r).date = r.date := by
  split <;> rfl

theorem find?_eq_head?_filter (p : Row → Bool) (l : List Row) :
    l.find? p = (l.filter p).head? := by
  induction l with
  | nil => rfl
  | cons a t ih =>
      cases h : p a with
      | true => simp [List.find?_cons_of_pos _ h, List.filter_cons, h]
      | false =>
          rw [List.find?_cons_of_neg _ (by simp [h]), List.filter_cons]
          simp only [h, Bool.false_eq_true, if_false]
          exact ih

theorem filter_keyMatch_eq_single {rows : List Row} {sid : ℕ} {d : ℤ}
    {ex : Row}
    (hpw : rows.Pairwise
      (fun a b => ¬(a.studentId = b.studentId ∧ a.date = b.date)))
    (hfind : rows.find? (keyMatch sid d) = some ex) :
    rows.filter (keyMatch sid d) = [ex] := by
  induction rows with
  | nil => simp at hfind
  | cons a t ih =>
      rcases List.pairwise_cons.mp hpw with ⟨ha, hpt⟩
      by_cases h : keyMatch sid d a
      · rw [List.find?_cons_of_pos _ h] at hfind
        injection hfind with h'
        subst h'
        have hnone : t.filter (keyMatch sid d) = [] := by
          rw [List.filter_eq_nil_iff]
          intro b hb hkb
          rcases (keyMatch_iff sid d a).mp h with ⟨h1, h2⟩
          rcases (keyMatch_iff sid d b).mp hkb with ⟨h3, h4⟩
          exact ha b hb ⟨h1.trans h3.symm, h2.trans h4.symm⟩
        simp [List.filter_cons, h, hnone]
      · rw [List.find?_cons_of_neg _ h] at hfind
        simp [List.filter_cons, h, ih hpt hfind]

theorem upsertOne_WF {st : Store} (h : st.WF) (rec : InRec) (uid : ℕ)
    (now : ℤ) : (upsertOne st rec uid now).WF := by
  obtain ⟨hid, hpair, hlt⟩ := h
  cases hfind : st.rows.find? (keyMatch rec.studentId rec.date) with
  | some ex =>
      simp only [upsertOne, hfind]
      refine ⟨?_, ?_, ?_⟩
      · rw [List.pairwise_map]
        exact hid.imp (fun {a b} hab => by simpa [updIf_id] using hab)
      · rw [List.pairwise_map]
        exact hpair.imp (fun {a b} hab => by
          simpa [updIf_studentId, updIf_date] using hab)
      · intro r' hr'
        rcases List.mem_map.mp hr' with ⟨r, hr, rfl⟩
        rw [updIf_id]
        exact hlt r hr
  | none =>
      have hnomatch := List.find?_eq_none.mp hfind
      simp only [upsertOne, hfind]
      refine ⟨?_, ?_, ?_⟩
      · rw [List.pairwise_append]
        refine ⟨hid, by simp, ?_⟩
        intro a ha b hb
        have hb' : b = freshRow st rec uid now := by simpa using hb
        subst hb'
        exact Nat.ne_of_lt (hlt a ha)
      · rw [List.pairwise_append]
        refine ⟨hpair, by simp, ?_⟩
        intro a ha b hb
        have hb' : b = freshRow st rec uid now := by simpa using hb
        subst hb'
        have := hnomatch a ha
        rw [keyMatch_iff] at this
        simpa [freshRow] using this
      · intro r hr
        rcases List.mem_append.mp hr with hr | hr
        · exact Nat.lt_succ_of_lt (hlt r hr)
        · have hr' : r = freshRow st rec uid now := by simpa using hr
          subst hr'
          exact Nat.lt_succ_self _

theorem rowsFor_upsertOne_ne {st : Store} (h : st.WF) (rec : InRec) (uid : ℕ)
    (now : ℤ) {sid : ℕ} {d : ℤ}
    (hne : ¬(rec.studentId = sid ∧ rec.date = d)) :
    rowsFor (upsertOne st rec uid now) sid d = rowsFor st sid d := by
  obtain ⟨hid, hpair, _⟩ := h
  cases hfind : st.rows.find? (keyMatch rec.studentId rec.date) with
  | some ex =>
      have hex_mem := List.mem_of_find?_eq_some hfind
      have hex_p := List.find?_some hfind
      simp only [upsertOne, hfind, rowsFor]
      rw [List.filter_map]
      have hcong : (keyMatch sid d) ∘
          (fun r => if r.id = ex.id then updRow rec uid now r else r) =
          keyMatch sid d := by
        funext r
        by_cases hr : r.id = ex.id <;> simp [hr, keyMatch_updRow, Function.comp]
      rw [hcong]
      apply List.map_congr_left ?_ |>.trans (List.map_id _)
      intro b hb
      rcases List.mem_filter.mp hb with ⟨hbmem, hbk⟩
      have hbne : b ≠ ex := by
        intro hbe
        subst hbe
        rcases (keyMatch_iff _ _ _).mp hbk with ⟨h1, h2⟩
        rcases (keyMatch_iff _ _ _).mp hex_p with ⟨h3, h4⟩
        exact hne ⟨h3.symm.trans h1, h4.symm.trans h2⟩
      have hbid : b.id ≠ ex.id :=
        hid.forall (fun _ _ hxy => Ne.symm hxy) hbmem hex_mem hbne
      simp [hbid]
  | none =>
      have hfresh : keyMatch sid d (freshRow st rec uid now) = false := by
        simp only [keyMatch, freshRow]
        by_cases h1 : rec.studentId = sid <;> by_cases h2 : rec.date = d <;>
          simp_all
      simp [upsertOne, hfind, rowsFor, List.filter_append, hfresh]

theorem rowsFor_upsertOne_eq {st : Store} (h : st.WF) (rec : InRec) (uid : ℕ)
    (now : ℤ) :
    rowsFor (upsertOne st rec uid now) rec.studentId rec.date =
      match (rowsFor st rec.studentId rec.date).head? with
      | none => [freshRow st rec uid now]
      | some old => [updRow rec uid now old] := by
  obtain ⟨hid, hpair, _⟩ := h
  have hhead := (find?_eq_head?_filter (keyMatch rec.studentId rec.date)
    st.rows).symm
  cases hfind : st.rows.find? (keyMatch rec.studentId rec.date) with
  | some ex =>
      have hfilter : rowsFor st rec.studentId rec.date = [ex] :=
        filter_keyMatch_eq_single hpair hfind
      rw [hfilter]
      simp only [List.head?]
      simp only [upsertOne, hfind, rowsFor]
      rw [List.filter_map]
      have hcong : (keyMatch rec.studentId rec.date) ∘
          (fun r => if r.id = ex.id then updRow rec uid now r else r) =
          keyMatch rec.studentId rec.date := by
        funext r
        by_cases hr : r.id = ex.id <;> simp [hr, keyMatch_updRow, Function.comp]
      rw [hcong]
      have : st.rows.filter (keyMatch rec.studentId rec.date) = [ex] := hfilter
      rw [this]
      simp
  | none =>
      have hfilter : rowsFor st rec.studentId rec.date = [] := by
        rw [rowsFor, List.filter_eq_nil_iff]
        exact fun a ha => fun hk => (List.find?_eq_none.mp hfind a ha) hk
      rw [hfilter]
      simp only [List.head?]
      have hfresh : keyMatch rec.studentId rec.date (freshRow st rec uid now) =
          true := by
        simp [keyMatch, freshRow]
      simp only [upsertOne, hfind, rowsFor, List.filter_append, hfresh]
      have hall : st.rows.filter (keyMatch rec.studentId rec.date) = [] :=
        hfilter
      rw [hall]
      simpa using hfresh

theorem processBatch_characterization (isAdmin : Bool) (lh : Option ℤ)
    (now : ℤ) (uid : ℕ) :
    ∀ (recs : List InRec) (st : Store),
      processBatch isAdmin lh now uid recs st =
        ⟨(recs.find? (recFails isAdmin lh now)).map (fun r => r.date),
         applyAll (recs.takeWhile (fun r => !recFails isAdmin lh now r))
           uid now st⟩ := by
  intro recs
  induction recs with
  | nil => intro st; rfl
  | cons r rs ih =>
      intro st
      cases h : recFails isAdmin lh now r with
      | true =>
          rw [processBatch]
          rw [show (!isAdmin && lockCheckRejects r.date lh now) =
            recFails isAdmin lh now r from rfl, h]
          simp [List.find?_cons_of_pos _ h, List.takeWhile_cons, h, applyAll]
      | false =>
          rw [processBatch]
          rw [show (!isAdmin && lockCheckRejects r.date lh now) =
            recFails isAdmin lh now r from rfl, h]
          simp only [if_false, Bool.false_eq_true]
          rw [ih (upsertOne st r uid now)]
          rw [List.find?_cons_of_neg _ (by simp [h])]
          simp [List.takeWhile_cons, h, applyAll]

theorem applyAll_WF (uid : ℕ) (now : ℤ) :
    ∀ (recs : List InRec) {st : Store}, st.WF → (applyAll recs uid now st).WF := by
  intro recs
  induction recs with
  | nil => intro st h; exact h
  | cons r rs ih =>
      intro st h
      show (applyAll rs uid now (upsertOne st r uid now)).WF
      exact ih (upsertOne_WF h r uid now)

theorem applyWrites_WF :
    ∀ (ws : List Write) {st : Store}, st.WF → (applyWrites ws st).WF := by
  intro ws
  induction ws with
  | nil => intro st h; exact h
  | cons w ws ih =>
      intro st h
      show (applyWrites ws (upsertOne st w.input w.uid w.now)).WF
      exact ih (upsertOne_WF h w.input w.uid w.now)

theorem inputMatch_false_iff (sid : ℕ) (d : ℤ) (r : InRec) :
    inputMatch sid d r = false ↔ ¬(r.studentId = sid ∧ r.date = d) := by
  simp [inputMatch]

theorem rowsFor_applyAll_ne (uid : ℕ) (now : ℤ) :
    ∀ (recs : List InRec) {st : Store}, st.WF →
      ∀ {sid : ℕ} {d : ℤ},
      (∀ r ∈ recs, inputMatch sid d r = false) →
      rowsFor (applyAll recs uid now st) sid d = rowsFor st sid d := by
  intro recs
  induction recs with
  | nil => intro st _ sid d _; rfl
  | cons r rs ih =>
      intro st h sid d hnone
      have hr := hnone r (List.mem_cons_self r rs)
      have hne : ¬(r.studentId = sid ∧ r.date = d) :=
        (inputMatch_false_iff sid d r).mp hr
      have step : rowsFor (upsertOne st r uid now) sid d = rowsFor st sid d :=
        rowsFor_upsertOne_ne h r uid now hne
      have htail := ih (upsertOne_WF h r uid now)
        (fun r' hr' => hnone r' (List.mem_cons_of_mem _ hr'))
      exact htail.trans step

theorem rowsFor_applyAll_batch (uid : ℕ) (now : ℤ) :
    ∀ (recs : List InRec) {st : Store}, st.WF →
      ∀ {sid : ℕ} {d : ℤ} {w : InRec},
      (recs.filter (inputMatch sid d)).getLast? = some w →
      ∃ row, rowsFor (applyAll recs uid now st) sid d = [row] ∧
        row.studentId = sid ∧ row.date = d ∧
        row.status = w.status ∧ row.remarks = w.remarks ∧
        row.markedBy = uid ∧ row.updatedAt = now ∧
        row.markedAt = markedAtAfter st sid d now := by
  intro recs
  induction recs with
  | nil => intro st _ sid d w hlast; simp at hlast
  | cons r rs ih =>
      intro st hWF sid d w hlast
      have happ : applyAll (r :: rs) uid now st =
          applyAll rs uid now (upsertOne st r uid now) := rfl
      have hWF' := upsertOne_WF hWF r uid now
      cases hm : inputMatch sid d r with
      | false =>
          rw [List.filter_cons] at hlast
          rw [hm] at hlast
          simp only [Bool.false_eq_true, if_false] at hlast
          have hne : ¬(r.studentId = sid ∧ r.date = d) :=
            (inputMatch_false_iff sid d r).mp hm
          have hstep := rowsFor_upsertOne_ne hWF r uid now hne
          obtain ⟨row, hrow, h1, h2, h3, h4, h5, h6, h7⟩ := ih hWF' hlast
          refine ⟨row, happ ▸ hrow, h1, h2, h3, h4, h5, h6, ?_⟩
          rw [h7]
          unfold markedAtAfter
          rw [hstep]
      | true =>
          have hm' : r.studentId = sid ∧ r.date = d := by
            simpa [inputMatch] using hm
          obtain ⟨hsid, hdate⟩ := hm'
          subst hsid
          subst hdate
          have hkey := rowsFor_upsertOne_eq hWF r uid now
          rw [List.filter_cons] at hlast
          rw [hm] at hlast
          simp only [if_true] at hlast
          cases hh : (rowsFor st r.studentId r.date).head? with
          | none =>
              rw [hh] at hkey
              have hM : markedAtAfter st r.studentId r.date now = now := by
                unfold markedAtAfter
                rw [hh]
              cases hrs : (rs.filter (inputMatch r.studentId r.date)).getLast? with
              | none =>
                  have hnilf : rs.filter (inputMatch r.studentId r.date) = [] :=
                    List.getLast?_eq_none_iff.mp hrs
                  rw [hnilf] at hlast
                  have hw : w = r := by simpa using hlast.symm
                  subst hw
                  have hnomatch : ∀ r' ∈ rs,
                      inputMatch w.studentId w.date r' = false := by
                    intro r' hr'
                    by_contra hc
                    have : r' ∈ rs.filter (inputMatch w.studentId w.date) :=
                      List.mem_filter.mpr ⟨hr', by
                        cases hx : inputMatch w.studentId w.date r'
                        · exact absurd hx hc
                        · rfl⟩
                    rw [hnilf] at this
                    exact absurd this (List.not_mem_nil r')
                  have hpres := rowsFor_applyAll_ne uid now rs hWF' hnomatch
                  refine ⟨freshRow st w uid now, ?_, rfl, rfl, rfl, rfl, rfl,
                    rfl, ?_⟩
                  · rw [happ, hpres, hkey]
                  · rw [hM]
                    rfl
              | some w' =>
                  have hne : rs.filter (inputMatch r.studentId r.date) ≠ [] := by
                    intro hc
                    rw [hc] at hrs
                    exact Option.noConfusion hrs
                  rw [List.getLast?_cons, hrs] at hlast
                  have hw : w = w' := by simpa using hlast.symm
                  subst hw
                  obtain ⟨row, hrow, h1, h2, h3, h4, h5, h6, h7⟩ :=
                    ih hWF' hrs
                  refine ⟨row, happ ▸ hrow, h1, h2, h3, h4, h5, h6, ?_⟩
                  rw [h7, hM]
                  unfold markedAtAfter
                  rw [hkey]
                  rfl
          | some old =>
              rw [hh] at hkey
              have hold_mem : old ∈ rowsFor st r.studentId r.date :=
                List.mem_of_mem_head? (by rw [hh]; rfl)
              have hold_key : keyMatch r.studentId r.date old = true :=
                (List.mem_filter.mp hold_mem).2
              obtain ⟨holds, holdd⟩ := (keyMatch_iff _ _ _).mp hold_key
              have hM : markedAtAfter st r.studentId r.date now =
                  old.markedAt := by
                unfold markedAtAfter
                rw [hh]
              cases hrs : (rs.filter (inputMatch r.studentId r.date)).getLast? with
              | none =>
                  have hnilf : rs.filter (inputMatch r.studentId r.date) = [] :=
                    List.getLast?_eq_none_iff.mp hrs
                  rw [hnilf] at hlast
                  have hw : w = r := by simpa using hlast.symm
                  subst hw
                  have hnomatch : ∀ r' ∈ rs,
                      inputMatch w.studentId w.date r' = false := by
                    intro r' hr'
                    by_contra hc
                    have : r' ∈ rs.filter (inputMatch w.studentId w.date) :=
                      List.mem_filter.mpr ⟨hr', by
                        cases hx : inputMatch w.studentId w.date r'
                        · exact absurd hx hc
                        · rfl⟩
                    rw [hnilf] at this
                    exact absurd this (List.not_mem_nil r')
                  have hpres := rowsFor_applyAll_ne uid now rs hWF' hnomatch
                  refine ⟨updRow w uid now old, ?_, holds, holdd, rfl, rfl, rfl,
                    rfl, ?_⟩
                  · rw [happ, hpres, hkey]
                  · rw [hM]
                    rfl
              | some w' =>
                  rw [List.getLast?_cons, hrs] at hlast
                  have hw : w = w' := by simpa using hlast.symm
                  subst hw
                  obtain ⟨row, hrow, h1, h2, h3, h4, h5, h6, h7⟩ :=
                    ih hWF' hrs
                  refine ⟨row, happ ▸ hrow, h1, h2, h3, h4, h5, h6, ?_⟩
                  rw [h7, hM]
                  unfold markedAtAfter
                  rw [hkey]
                  rfl

theorem takeWhile_eq_self_of_find?_none {α : Type} {p : α → Bool} :
    ∀ (l : List α), l.find? p = none → l.takeWhile (fun a => !p a) = l := by
  intro l
  induction l with
  | nil => intro _; rfl
  | cons a t ih =>
      intro h
      have ha : p a = false := by
        have := List.find?_eq_none.mp h a (List.mem_cons_self a t)
        cases hx : p a
        · rfl
        · exact absurd hx this
      have ht : t.find? p = none :=
        List.find?_eq_none.mpr
          (fun x hx => List.find?_eq_none.mp h x (List.mem_cons_of_mem _ hx))
      rw [List.takeWhile_cons]
      simp only [ha, Bool.not_false, if_true]
      rw [ih ht]

theorem processBatch_error_none_store (isAdmin : Bool) (lh : Option ℤ)
    (now : ℤ) (uid : ℕ) (recs : List InRec) (st : Store)
    (h : (processBatch isAdmin lh now uid recs st).error = none) :
    (processBatch isAdmin lh now uid recs st).store =
      applyAll recs uid now st := by
  rw [processBatch_characterization] at h ⊢
  simp only [Option.map_eq_none'] at h
  rw [takeWhile_eq_self_of_find?_none recs h]

/-- C4: starting from any well-formed store, after a non-empty sequence of
successfully applied upserts all targeting the same (studentId, date) pair,
exactly one attendance row exists for that pair, and its status, remarks and
markedBy equal those of the last applied write; re-upserting an existing
pair overwrites in place and never creates a second row. -/
theorem rowsFor_applyWrites_same_pair :
    ∀ (ws : List Write) {st : Store}, st.WF →
      ∀ {sid : ℕ} {d : ℤ} {lw : Write},
      (∀ w ∈ ws, w.input.studentId = sid ∧ w.input.date = d) →
      ws.getLast? = some lw →
      ∃ row, rowsFor (applyWrites ws st) sid d = [row] ∧
        row.studentId = sid ∧ row.date = d ∧
        row.status = lw.input.status ∧ row.remarks = lw.input.remarks ∧
        row.markedBy = lw.uid ∧ row.updatedAt = lw.now := by
  intro ws
  induction ws with
  | nil => intro st _ sid d lw _ hlast; simp at hlast
  | cons w ws ih =>
      intro st hWF sid d lw hall hlast
      have happ : applyWrites (w :: ws) st =
          applyWrites ws (upsertOne st w.input w.uid w.now) := rfl
      have hWF' := upsertOne_WF hWF w.input w.uid w.now
      obtain ⟨hsid, hdate⟩ := hall w (List.mem_cons_self w ws)
      cases ws with
      | nil =>
          have hlw : lw = w := by simpa using hlast.symm
          subst hlw
          subst hsid
          subst hdate
          have hkey := rowsFor_upsertOne_eq hWF lw.input lw.uid lw.now
          cases hh : (rowsFor st lw.input.studentId lw.input.date).head? with
          | none =>
              rw [hh] at hkey
              exact ⟨freshRow st lw.input lw.uid lw.now, hkey, rfl, rfl, rfl,
                rfl, rfl, rfl⟩
          | some old =>
              rw [hh] at hkey
              have hold_mem : old ∈ rowsFor st lw.input.studentId lw.input.date :=
                List.mem_of_mem_head? (by rw [hh]; rfl)
              obtain ⟨holds, holdd⟩ :=
                (keyMatch_iff _ _ _).mp (List.mem_filter.mp hold_mem).2
              exact ⟨updRow lw.input lw.uid lw.now old, hkey, holds, holdd,
                rfl, rfl, rfl, rfl⟩
      | cons w2 ws2 =>
          rw [List.getLast?_cons_cons] at hlast
          have hall' : ∀ w' ∈ w2 :: ws2,
              w'.input.studentId = sid ∧ w'.input.date = d :=
            fun w' hw' => hall w' (List.mem_cons_of_mem _ hw')
          rw [happ]
          exact ih hWF' hall' hlast

theorem jsRound_div (z : ℤ) (n : ℕ) (hn : 0 < n) :
    jsRound ((z : ℚ) / (n : ℚ)) = (2 * z + n) / (2 * n : ℤ) := by
  have hn' : (n : ℚ) ≠ 0 := by
    exact_mod_cast hn.ne'
  have hq : (z : ℚ) / (n : ℚ) + 1 / 2 =
      ((2 * z + n : ℤ) : ℚ) / ((2 * n : ℕ) : ℚ) := by
    push_cast
    field_simp
    ring
  rw [jsRound, hq, Rat.floor_intCast_div_natCast]
  push_cast
  rfl

/-- C3: an admin requester is never rejected by the lock machinery: the
upsert route never returns a `Locked` error for an admin (whatever the
records, setting value, time and prior store), and the client-side
`handleSave` proceeds for the admin role even when an administrative lock
row was found (`isLocked = true`). -/
theorem admin_bypass_absolute :
    (∀ (recs : List InRec) (uid : ℕ) (lockVal : Option String) (now : ℤ)
        (st : Store), (upsertRoute recs uid true lockVal now st).error = none) ∧
    (∀ isLocked : Bool, handleSaveProceeds isLocked "admin" = true) := by
  constructor
  · intro recs uid lockVal now st
    rw [upsertRoute, processBatch_characterization]
    have hf : recFails true (parseIntJS (jsOrDefault24 lockVal)) now =
        fun _ => false := by
      funext r
      simp [recFails]
    rw [hf]
    simp
  · intro isLocked
    simp [handleSaveProceeds]

/-- C10, counterexample: the claim covers every string `parseInt` cannot
parse, but the empty string is falsy in JS, so `lockSetting?.value || '24'`
falls back to the default 24-hour window before `parseInt` ever sees it:
with stored value `""` (unparsable, `parseIntJS "" = none`) a late non-admin
write IS rejected, against the claim that no record is ever rejected. -/
theorem empty_setting_value_still_locks :
    parseIntJS "" = none ∧
    (upsertRoute [⟨1, 0, Status.present, none⟩] 7 false (some "")
        200000000 ⟨[], 0⟩).error = some 0 := by
  refine ⟨by decide, by decide⟩

/-- C10 (amended): for every NON-EMPTY stored setting string that `parseInt`
cannot parse, the lock hours are `NaN`, the computed lock time is an invalid
date, every comparison against it is false, and the upsert route therefore
rejects nothing: it returns no error and writes every record of the batch. -/
theorem nan_lock_hours_accepts_everything (v : String) (hv : v ≠ "")
    (hnan : parseIntJS v = none) (recs : List InRec) (uid : ℕ) (now : ℤ)
    (st : Store) :
    upsertRoute recs uid false (some v) now st =
      ⟨none, applyAll recs uid now st⟩ := by
  rw [upsertRoute]
  simp only [jsOrDefault24]
  rw [if_neg hv, hnan, processBatch_characterization]
  have hf : recFails false none now = fun _ => false := by
    funext r
    simp [recFails, lockCheckRejects, jsGt, lockTimeOf]
  rw [hf]
  have hfind : recs.find? (fun _ => false) = none :=
    List.find?_eq_none.mpr (fun x _ => by simp)
  rw [hfind, takeWhile_eq_self_of_find?_none recs hfind]
  rfl

/-- C10 witness: the amended statement instantiated at the unparsable
non-empty value `"abc"` and a one-record batch far past any boundary. -/
theorem nan_lock_hours_accepts_everything_witness :
    ("abc" ≠ "") ∧ (parseIntJS "abc" = none) ∧
    upsertRoute [⟨1, 0, Status.present, none⟩] 7 false (some "abc")
        200000000 ⟨[], 0⟩ =
      ⟨none, applyAll [⟨1, 0, Status.present, none⟩] 7 200000000 ⟨[], 0⟩⟩ :=
  ⟨by decide, by decide,
    nan_lock_hours_accepts_everything "abc" (by decide) (by decide) _ _ _ _⟩

/-- C1, counterexample: the lock check runs inside the write loop, so a batch
whose FIRST record passes and whose SECOND record is locked is rejected with
the `Locked` error only after the first record has already been written: the
stored state after the rejected call differs from the state before it. -/
theorem batch_partial_write_counterexample :
    (upsertRoute [⟨1, 2, Status.present, none⟩, ⟨2, 0, Status.present, none⟩]
        7 false (some "24") 300000000 ⟨[], 0⟩).error = some 0 ∧
    (upsertRoute [⟨1, 2, Status.present, none⟩, ⟨2, 0, Status.present, none⟩]
        7 false (some "24") 300000000 ⟨[], 0⟩).store ≠ ⟨[], 0⟩ := by
  refine ⟨by decide, by decide⟩

/-- C1 (amended): when any record of the batch fails the lock check, the
call is rejected with a `Locked` error naming the date of the FIRST failing
record; the records strictly before that first failing record have been
written, and no record from the first failing one onward is written. -/
theorem batch_rejected_at_first_locked_record (isAdmin : Bool)
    (lh : Option ℤ) (now : ℤ) (uid : ℕ) (recs : List InRec) (st : Store)
    (herr : (processBatch isAdmin lh now uid recs st).error ≠ none) :
    ∃ pre fail post, recs = pre ++ fail :: post ∧
      recFails isAdmin lh now fail = true ∧
      (∀ r ∈ pre, recFails isAdmin lh now r = false) ∧
      (processBatch isAdmin lh now uid recs st).error = some fail.date ∧
      (processBatch isAdmin lh now uid recs st).store =
        applyAll pre uid now st := by
  induction recs generalizing st with
  | nil => exact absurd rfl herr
  | cons r rs ih =>
      have hstep : processBatch isAdmin lh now uid (r :: rs) st =
          if recFails isAdmin lh now r = true then ⟨some r.date, st⟩
          else processBatch isAdmin lh now uid rs (upsertOne st r uid now) :=
        rfl
      cases hr : recFails isAdmin lh now r with
      | true =>
          refine ⟨[], r, rs, rfl, hr, by simp, ?_, ?_⟩
          · rw [hstep, if_pos hr]
          · rw [hstep, if_pos hr]
            rfl
      | false =>
          have herr' : (processBatch isAdmin lh now uid rs
              (upsertOne st r uid now)).error ≠ none := by
            rw [hstep, if_neg (by simp [hr])] at herr
            exact herr
          obtain ⟨pre, fail, post, heq, hf, hpre, he, hs⟩ :=
            ih (upsertOne st r uid now) herr'
          refine ⟨r :: pre, fail, post, by rw [heq]; rfl, hf, ?_, ?_, ?_⟩
          · intro r' hr'
            rcases List.mem_cons.mp hr' with hr' | hr'
            · rw [hr']
              exact hr
            · exact hpre r' hr'
          · rw [hstep, if_neg (by simp [hr])]
            exact he
          · rw [hstep, if_neg (by simp [hr])]
            exact hs

/-- C1 witness: the amended statement instantiated at the two-record batch
of the counterexample; the first record (dated day 2, still open) forms the
written prefix and the second (dated day 0, locked) is the first failure. -/
theorem batch_rejected_at_first_locked_record_witness :
    ((processBatch false (some 24) 300000000 7
        [⟨1, 2, Status.present, none⟩, ⟨2, 0, Status.present, none⟩]
        ⟨[], 0⟩).error ≠ none) ∧
    (∃ pre fail post,
      [⟨1, 2, Status.present, none⟩, ⟨2, 0, Status.present, none⟩] =
        pre ++ fail :: post ∧
      recFails false (some 24) 300000000 fail = true ∧
      (∀ r ∈ pre, recFails false (some 24) 300000000 r = false) ∧
      (processBatch false (some 24) 300000000 7
          [⟨1, 2, Status.present, none⟩, ⟨2, 0, Status.present, none⟩]
          ⟨[], 0⟩).error = some fail.date ∧
      (processBatch false (some 24) 300000000 7
          [⟨1, 2, Status.present, none⟩, ⟨2, 0, Status.present, none⟩]
          ⟨[], 0⟩).store = applyAll pre 7 300000000 ⟨[], 0⟩) :=
  ⟨by decide,
    batch_rejected_at_first_locked_record false (some 24) 300000000 7
      [⟨1, 2, Status.present, none⟩, ⟨2, 0, Status.present, none⟩]
      ⟨[], 0⟩ (by decide)⟩

/-- C7, counterexample: the cohort average is not the exact unweighted mean:
for student percentages 100 and 99 the code stores
`Math.round((100 + 99) / 2) = 100`, whereas the unweighted mean is 99.5. -/
theorem cohort_average_not_exact_mean :
    avgAttendance [100, 99] = 100 ∧
    ((avgAttendance [100, 99] : ℚ) ≠ ((100 : ℚ) + 99) / 2) := by
  have h : avgAttendance [100, 99] = 100 := by
    rw [avgAttendance]
    norm_num
    exact jsRound_eval _ _ (by norm_num) (by norm_num)
  refine ⟨h, ?_⟩
  rw [h]
  norm_num

/-- C7 (amended): for every non-empty list of per-student percentages, the
cohort average is the unweighted mean of the students' own percentages
rounded half-up to an integer — `(2 * sum + n) / (2 * n)` — it depends only
on the multiset of percentages (every student contributes equally, whatever
their record count), and the below-threshold count is the number of students
whose percentage is strictly below 75: a student exactly at 75 is not
counted. -/
theorem cohort_summary_spec (ps : List ℤ) (hne : 0 < ps.length) :
    avgAttendance ps = (2 * ps.sum + ps.length) / (2 * (ps.length : ℤ)) ∧
    (∀ ps' : List ℤ, ps.Perm ps' → avgAttendance ps = avgAttendance ps') ∧
    belowThreshold ps = ps.countP (fun p => decide (p < 75)) ∧
    belowThreshold (75 :: ps) = belowThreshold ps := by
  refine ⟨?_, ?_, ?_, ?_⟩
  · rw [avgAttendance, if_pos hne, jsRound_div _ _ hne]
  · intro ps' hp
    rw [avgAttendance, avgAttendance, hp.length_eq, hp.sum_eq]
  · rw [belowThreshold, List.countP_eq_length_filter]
  · rw [belowThreshold, belowThreshold, List.filter_cons]
    norm_num

/-- C7 witness: the amended statement instantiated at the three-student
percentage list `[100, 99, 75]` (note the student at exactly 75). -/
theorem cohort_summary_spec_witness :
    (0 < ([100, 99, 75] : List ℤ).length) ∧
    (avgAttendance [100, 99, 75] =
        (2 * ([100, 99, 75] : List ℤ).sum + ([100, 99, 75] : List ℤ).length) /
          (2 * (([100, 99, 75] : List ℤ).length : ℤ)) ∧
      (∀ ps' : List ℤ, ([100, 99, 75] : List ℤ).Perm ps' →
          avgAttendance [100, 99, 75] = avgAttendance ps') ∧
      belowThreshold [100, 99, 75] =
        ([100, 99, 75] : List ℤ).countP (fun p => decide (p < 75)) ∧
      belowThreshold (75 :: [100, 99, 75]) = belowThreshold [100, 99, 75]) :=
  ⟨by decide, cohort_summary_spec [100, 99, 75] (by decide)⟩

/-- C4 witness: two writes to the pair (student 1, day 0) from different
writers at different times, applied to the empty store; the surviving row
carries the second write's fields. -/
theorem rowsFor_applyWrites_same_pair_witness :
    ((⟨[], 0⟩ : Store).WF) ∧
    (∀ w ∈ ([⟨⟨1, 0, Status.present, none⟩, 5, 10⟩,
             ⟨⟨1, 0, Status.absent, some "sick"⟩, 6, 20⟩] : List Write),
        w.input.studentId = 1 ∧ w.input.date = 0) ∧
    (([⟨⟨1, 0, Status.present, none⟩, 5, 10⟩,
       ⟨⟨1, 0, Status.absent, some "sick"⟩, 6, 20⟩] : List Write).getLast? =
      some ⟨⟨1, 0, Status.absent, some "sick"⟩, 6, 20⟩) ∧
    (∃ row,
      rowsFor (applyWrites
          [⟨⟨1, 0, Status.present, none⟩, 5, 10⟩,
           ⟨⟨1, 0, Status.absent, some "sick"⟩, 6, 20⟩] ⟨[], 0⟩) 1 0 =
        [row] ∧
      row.studentId = 1 ∧ row.date = 0 ∧
      row.status = Status.absent ∧ row.remarks = some "sick" ∧
      row.markedBy = 6 ∧ row.updatedAt = 20) :=
  ⟨⟨List.Pairwise.nil, List.Pairwise.nil, by simp⟩, by decide, by decide,
    @rowsFor_applyWrites_same_pair
      [⟨⟨1, 0, Status.present, none⟩, 5, 10⟩,
       ⟨⟨1, 0, Status.absent, some "sick"⟩, 6, 20⟩] ⟨[], 0⟩
      ⟨List.Pairwise.nil, List.Pairwise.nil, by simp⟩ 1 0
      ⟨⟨1, 0, Status.absent, some "sick"⟩, 6, 20⟩ (by decide) (by decide)⟩

/-- C5: submitting the same batch twice through the upsert route, both calls
accepted (no `Locked` error), leaves exactly one row for each (studentId,
date) pair the batch targets, with the same status and remarks after the
second call as after the first, `updatedAt` advanced to the second call's
time, and `markedAt` unchanged from the first call. -/
theorem resubmission_idempotent (recs : List InRec) (uid1 uid2 : ℕ)
    (isAdmin1 isAdmin2 : Bool) (lockVal : Option String) (t1 t2 : ℤ)
    (st0 : Store) (sid : ℕ) (d : ℤ) (w : InRec)
    (hWF : st0.WF) (ht : t1 < t2)
    (hpair : (recs.filter (inputMatch sid d)).getLast? = some w)
    (h1 : (upsertRoute recs uid1 isAdmin1 lockVal t1 st0).error = none)
    (h2 : (upsertRoute recs uid2 isAdmin2 lockVal t2
        (upsertRoute recs uid1 isAdmin1 lockVal t1 st0).store).error = none) :
    ∃ row1 row2,
      rowsFor (upsertRoute recs uid1 isAdmin1 lockVal t1 st0).store sid d =
        [row1] ∧
      rowsFor (upsertRoute recs uid2 isAdmin2 lockVal t2
          (upsertRoute recs uid1 isAdmin1 lockVal t1 st0).store).store sid d =
        [row2] ∧
      row2.status = row1.status ∧ row2.remarks = row1.remarks ∧
      row1.updatedAt = t1 ∧ row2.updatedAt = t2 ∧
      row1.updatedAt < row2.updatedAt ∧
      row2.markedAt = row1.markedAt := by
  have hs1 : (upsertRoute recs uid1 isAdmin1 lockVal t1 st0).store =
      applyAll recs uid1 t1 st0 :=
    processBatch_error_none_store _ _ _ _ _ _ h1
  have hWF1 : (applyAll recs uid1 t1 st0).WF := applyAll_WF uid1 t1 recs hWF
  have hs2 : (upsertRoute recs uid2 isAdmin2 lockVal t2
      (upsertRoute recs uid1 isAdmin1 lockVal t1 st0).store).store =
      applyAll recs uid2 t2 (upsertRoute recs uid1 isAdmin1 lockVal t1
        st0).store :=
    processBatch_error_none_store _ _ _ _ _ _ h2
  obtain ⟨row1, hr1, _, _, hst1, hrm1, _, hupd1, hmk1⟩ :=
    rowsFor_applyAll_batch uid1 t1 recs hWF hpair
  obtain ⟨row2, hr2, _, _, hst2, hrm2, _, hupd2, hmk2⟩ :=
    rowsFor_applyAll_batch uid2 t2 recs hWF1 hpair
  refine ⟨row1, row2, ?_, ?_, ?_, ?_, hupd1, hupd2, ?_, ?_⟩
  · rw [hs1]
    exact hr1
  · rw [hs2, hs1]
    exact hr2
  · rw [hst2, hst1]
  · rw [hrm2, hrm1]
  · rw [hupd1, hupd2]
    exact ht
  · rw [hmk2]
    rw [show markedAtAfter (applyAll recs uid1 t1 st0) sid d t2 =
      row1.markedAt from by unfold markedAtAfter; rw [hr1]; rfl]

/-- C5 witness: the idempotent-resubmission statement instantiated at a
one-record batch for (student 1, day 0) submitted at times 10 and 20 under
the default 24-hour window, starting from the empty store. -/
theorem resubmission_idempotent_witness :
    ((⟨[], 0⟩ : Store).WF) ∧ ((10 : ℤ) < 20) ∧
    ((([⟨1, 0, Status.present, none⟩] : List InRec).filter
        (inputMatch 1 0)).getLast? = some ⟨1, 0, Status.present, none⟩) ∧
    ((upsertRoute [⟨1, 0, Status.present, none⟩] 7 false (some "24") 10
        ⟨[], 0⟩).error = none) ∧
    ((upsertRoute [⟨1, 0, Status.present, none⟩] 8 false (some "24") 20
        (upsertRoute [⟨1, 0, Status.present, none⟩] 7 false (some "24") 10
          ⟨[], 0⟩).store).error = none) ∧
    (∃ row1 row2,
      rowsFor (upsertRoute [⟨1, 0, Status.present, none⟩] 7 false (some "24")
          10 ⟨[], 0⟩).store 1 0 = [row1] ∧
      rowsFor (upsertRoute [⟨1, 0, Status.present, none⟩] 8 false (some "24")
          20 (upsertRoute [⟨1, 0, Status.present, none⟩] 7 false (some "24")
            10 ⟨[], 0⟩).store).store 1 0 = [row2] ∧
      row2.status = row1.status ∧ row2.remarks = row1.remarks ∧
      row1.updatedAt = 10 ∧ row2.updatedAt = 20 ∧
      row1.updatedAt < row2.updatedAt ∧
      row2.markedAt = row1.markedAt) :=
  ⟨⟨List.Pairwise.nil, List.Pairwise.nil, by simp⟩, by decide, by decide,
    by decide, by decide,
    resubmission_idempotent [⟨1, 0, Status.present, none⟩] 7 8 false false
      (some "24") 10 20 ⟨[], 0⟩ 1 0 ⟨1, 0, Status.present, none⟩
      ⟨List.Pairwise.nil, List.Pairwise.nil, by simp⟩ (by decide) (by decide)
      (by decide) (by decide)⟩
